import Mathlib

/-
Verification of `generate_avatar.py` (monolisa-avatar-generator).

Modelling conventions:
* Python `float` arithmetic is idealised as exact rational arithmetic (`ℚ`);
  Python `int` is `Int`/`Nat` (all relevant quantities are non-negative).
* Python strings are `List Char`; `str.strip()` and the parsing behaviour of
  `int(s, base)` are modelled over the ASCII whitespace characters.
* The external collaborators (HarfBuzz shaping plus FreeType rasterisation)
  are modelled as a black-box input: for each pixel size a list of
  `ShapedGlyph` records carrying exactly the fields the source reads
  (advances, offsets, bitmap dimensions, bearings, buffer, glyph name).
  `hb_font.scale` is set to `(upem, upem)`, so shaper outputs are in font
  design units, and `scale = px_size / upem` converts them to pixels.
* The PIL image operations (canvas creation, ellipse mask, Gaussian blur,
  paste, save) are external per the specification; `build_avatar` is modelled
  by the data it computes before/around those calls plus an event trace
  recording the order of font loading, shaping runs, mask building and the
  final file save.
-/

namespace AvatarGen

/-! ## Python string helpers -/

/-- ASCII whitespace, as stripped by Python `str.strip()` and `int()`. -/
def isPySpace (c : Char) : Bool :=
  decide (c.toNat = 32 ∨ c.toNat = 9 ∨ c.toNat = 10 ∨ c.toNat = 13 ∨
    c.toNat = 11 ∨ c.toNat = 12)

/-- Python `str.strip()`: drop leading and trailing whitespace. -/
def pyStrip (s : List Char) : List Char :=
  ((s.dropWhile isPySpace).reverse.dropWhile isPySpace).reverse

/-- Value of a hexadecimal digit character (0-9, a-f, A-F). -/
def hexVal (c : Char) : Option Nat :=
  if 48 ≤ c.toNat ∧ c.toNat ≤ 57 then some (c.toNat - 48)
  else if 97 ≤ c.toNat ∧ c.toNat ≤ 102 then some (c.toNat - 87)
  else if 65 ≤ c.toNat ∧ c.toNat ≤ 70 then some (c.toNat - 55)
  else none

/-- Value of a decimal digit character. -/
def decVal (c : Char) : Option Nat :=
  if 48 ≤ c.toNat ∧ c.toNat ≤ 57 then some (c.toNat - 48) else none

/-- Continuation of Python `int(s, base)` digit parsing: after at least one
digit, further digits may be separated by single underscores. -/
def digitsRest (base : Nat) (val : Char → Option Nat) :
    Nat → List Char → Option Nat
  | acc, [] => some acc
  | acc, c :: rest =>
    if c = '_' then
      match rest with
      | [] => none
      | c2 :: rest2 =>
        match val c2 with
        | some d => digitsRest base val (acc * base + d) rest2
        | none => none
    else
      match val c with
      | some d => digitsRest base val (acc * base + d) rest
      | none => none

/-- Python `int(s, base)` digit-run parsing: one digit, then `digitsRest`. -/
def digitsNum (base : Nat) (val : Char → Option Nat) :
    List Char → Option Nat
  | [] => none
  | c :: rest =>
    match val c with
    | some d => digitsRest base val d rest
    | none => none

/-- Python `int(s, base)` on the inputs reached in this program: surrounding
whitespace is stripped, then an optional single sign, then a digit run with
single underscores allowed between digits.  (The `0x`/`0X` prefix accepted by
`int(s, 16)` cannot yield a successful parse within the two-character slices
that `parse_color` passes, since `"0x"` alone has no digits; both the model
and Python reject it.) -/
def pyIntOfChars (base : Nat) (val : Char → Option Nat) (s : List Char) :
    Option Int :=
  match pyStrip s with
  | [] => none
  | c :: rest =>
    if c = '+' then (digitsNum base val rest).map (fun n => (n : Int))
    else if c = '-' then (digitsNum base val rest).map (fun n => -(n : Int))
    else (digitsNum base val (c :: rest)).map (fun n => (n : Int))

/-- The `value[1:]` slice applied when `value.startswith("#")`. -/
def stripHash (v : List Char) : List Char :=
  match v with
  | [] => []
  | c :: rest => if c = '#' then rest else c :: rest

/-! ## parse_color (source lines 27-36) -/

/-- `parse_color`: strip whitespace, strip one leading `#`, require length 6,
parse the three two-character slices in base 16.  `none` models the raised
`ValueError` (from the length check or from a slice `int(·, 16)` rejects). -/
def parseColor (value : List Char) (alpha : Int) :
    Option (Int × Int × Int × Int) :=
  let v := stripHash (pyStrip value)
  if v.length = 6 then
    match pyIntOfChars 16 hexVal (v.take 2),
        pyIntOfChars 16 hexVal ((v.drop 2).take 2),
        pyIntOfChars 16 hexVal ((v.drop 4).take 2) with
    | some r, some g, some b => some (r, g, b, alpha)
    | _, _, _ => none
  else none

/-! ## parse_features (source lines 39-50) -/

/-- Python `s.split(sep)` for a single-character separator (keeps empties). -/
def splitOn (sep : Char) : List Char → List (List Char)
  | [] => [[]]
  | c :: rest =>
    match splitOn sep rest with
    | h :: t => if c = sep then [] :: h :: t else (c :: h) :: t
    | [] => [[]]

/-- Python `s.split(sep, 1)` when `sep` occurs in `s`: the part before the
first separator and the part after it. -/
def splitFirst (sep : Char) : List Char → List Char × List Char
  | [] => ([], [])
  | c :: rest =>
    if c = sep then ([], rest)
    else
      let p := splitFirst sep rest
      (c :: p.1, p.2)

/-- Python dict assignment `d[k] = v`: insertion-ordered, overwriting the
value in place when the key is already present. -/
def dictSet (d : List (List Char × Int)) (k : List Char) (v : Int) :
    List (List Char × Int) :=
  if d.any (fun p => decide (p.1 = k)) then
    d.map (fun p => if p.1 = k then (k, v) else p)
  else d ++ [(k, v)]

/-- Python dict lookup. -/
def dictGet (d : List (List Char × Int)) (k : List Char) : Option Int :=
  (d.find? (fun p => decide (p.1 = k))).map (fun p => p.2)

/-- One iteration of the `parse_features` loop: strip the item, skip if
empty, else store `tag=value` (via `int`) or a bare tag with value 1.
`none` models the `ValueError` from `int` on a malformed value. -/
def featStep (d : List (List Char × Int)) (item : List Char) :
    Option (List (List Char × Int)) :=
  let token := pyStrip item
  if token = [] then some d
  else if token.contains '=' then
    let p := splitFirst '=' token
    match pyIntOfChars 10 decVal (pyStrip p.2) with
    | some v => some (dictSet d (pyStrip p.1) v)
    | none => none
  else some (dictSet d token 1)

/-- `parse_features`: fold the per-token step over `features_text.split(",")`. -/
def parseFeatures (s : List Char) : Option (List (List Char × Int)) :=
  (splitOn ',' s).foldlM featStep []

/-- The dictionary entry a single token contributes (`none` when the token is
skipped as empty, or when its value is malformed — the latter cannot occur in
a run where `parseFeatures` succeeds).  Analysis companion to `featStep`. -/
def tokenEntry (item : List Char) : Option (List Char × Int) :=
  let token := pyStrip item
  if token = [] then none
  else if token.contains '=' then
    let p := splitFirst '=' token
    match pyIntOfChars 10 decVal (pyStrip p.2) with
    | some v => some (pyStrip p.1, v)
    | none => none
  else some (token, 1)

/-! ## shape_and_measure (source lines 53-119) -/

/-- One shaped glyph as delivered by the external collaborators: the HarfBuzz
position record (`x_advance`, `y_advance`, `x_offset`, `y_offset`, in font
design units since `hb_font.scale = (upem, upem)`) together with the FreeType
rasterisation at the current pixel size (`bitmap.width`, `bitmap.rows`,
`bitmap_left`, `bitmap_top`, `bitmap.buffer`) and the glyph id plus the
optionally resolved glyph name (`none` when `get_glyph_name` fails). -/
structure ShapedGlyph where
  gid : Nat
  xAdvance : Int
  yAdvance : Int
  xOffset : Int
  yOffset : Int
  width : Nat
  rows : Nat
  bitmapLeft : Int
  bitmapTop : Int
  buffer : List Nat
  nameOpt : Option String
deriving DecidableEq, Repr

/-- `GlyphPlacement` dataclass (source lines 18-24). -/
structure GlyphPlacement where
  x : ℚ
  y : ℚ
  width : Nat
  height : Nat
  buffer : List Nat
deriving DecidableEq, Repr

/-- The running bounding box `(min_x, min_y, max_x, max_y)`. -/
structure BBoxQ where
  minX : ℚ
  minY : ℚ
  maxX : ℚ
  maxY : ℚ
deriving DecidableEq, Repr

/-- Update of the four running min/max accumulators by one contributing
glyph.  `none` models the initial `±inf` state, for which `min`/`max`
simply adopt the glyph's extents. -/
def mergeBox (box : Option BBoxQ) (gx gy : ℚ) (w h : Nat) : Option BBoxQ :=
  match box with
  | none => some ⟨gx, gy, gx + (w : ℚ), gy + (h : ℚ)⟩
  | some b =>
    some ⟨min b.minX gx, min b.minY gy,
      max b.maxX (gx + (w : ℚ)), max b.maxY (gy + (h : ℚ))⟩

/-- Glyph-name fallback: the resolved name, else `str(glyph_id)`. -/
def glyphLabel (g : ShapedGlyph) : String :=
  match g.nameOpt with
  | some s => s
  | none => toString g.gid

/-- The per-glyph loop of `shape_and_measure` (source lines 81-115), with the
pen position, the running bounding box and the accumulated placement and name
lists as explicit state. -/
def samLoop (scale : ℚ) :
    List ShapedGlyph → ℚ → Option BBoxQ → List GlyphPlacement →
      List String → Option BBoxQ × List GlyphPlacement × List String
  | [], _, box, ps, ns => (box, ps, ns)
  | g :: rest, penX, box, ps, ns =>
    let xOff := (g.xOffset : ℚ) * scale
    let yOff := (g.yOffset : ℚ) * scale
    let gx := penX + xOff + (g.bitmapLeft : ℚ)
    let gy := -yOff - (g.bitmapTop : ℚ)
    let box' := if 0 < g.width ∧ 0 < g.rows then mergeBox box gx gy g.width g.rows else box
    samLoop scale rest (penX + (g.xAdvance : ℚ) * scale) box'
      (ps ++ [⟨gx, gy, g.width, g.rows, g.buffer⟩]) (ns ++ [glyphLabel g])

/-- The shaper scale factor `scale = px_size / upem` (source line 71). -/
def scaleOf (upem pxSize : Nat) : ℚ := (pxSize : ℚ) / (upem : ℚ)

/-- `shape_and_measure`: run the glyph loop from a zero pen and an empty box;
return `none` (the Python `None`, i.e. EMPTY) when no glyph contributed to
the box, else the box with the placements and glyph names. -/
def shapeAndMeasure (upem pxSize : Nat) (gs : List ShapedGlyph) :
    Option (BBoxQ × List GlyphPlacement × List String) :=
  match samLoop (scaleOf upem pxSize) gs 0 none [] [] with
  | (none, _, _) => none
  | (some box, ps, ns) => some (box, ps, ns)

/-- The placement record of a single glyph given the pen position at which it
is shaped: `gx = pen_x + x_offset·scale + bitmap_left`,
`gy = -y_offset·scale - bitmap_top`. -/
def placeGlyph (scale penX : ℚ) (g : ShapedGlyph) : GlyphPlacement :=
  ⟨penX + (g.xOffset : ℚ) * scale + (g.bitmapLeft : ℚ),
    -((g.yOffset : ℚ) * scale) - (g.bitmapTop : ℚ), g.width, g.rows, g.buffer⟩

/-- The placement list produced from a given starting pen position: each
glyph advances the pen by its scaled `x_advance`. -/
def placementsFrom (scale : ℚ) (penX : ℚ) : List ShapedGlyph → List GlyphPlacement
  | [] => []
  | g :: rest =>
    placeGlyph scale penX g ::
      placementsFrom scale (penX + (g.xAdvance : ℚ) * scale) rest

/-- Sum of the scaled `x_advance` values of a glyph list (the pen travel). -/
def sumAdv (scale : ℚ) (gs : List ShapedGlyph) : ℚ :=
  (gs.map (fun g => (g.xAdvance : ℚ) * scale)).sum

/-- Bounding-box contribution of one placement: placements with zero bitmap
area leave the box unchanged. -/
def glyphBoxStep (box : Option BBoxQ) (p : GlyphPlacement) : Option BBoxQ :=
  if 0 < p.width ∧ 0 < p.height then mergeBox box p.x p.y p.width p.height
  else box

/-- The bounding box accumulated over a placement list. -/
def boxOfPlacements (ps : List GlyphPlacement) : Option BBoxQ :=
  ps.foldl glyphBoxStep none

/-! ## make_text_mask (source lines 122-138) -/

/-- Python 3 `round`: round half to even (values idealised as rationals). -/
def pyRound (q : ℚ) : Int :=
  let f := ⌊q⌋
  let r := q - (f : ℚ)
  if r < 1/2 then f
  else if 1/2 < r then f + 1
  else if f % 2 = 0 then f else f + 1

/-- The single-channel mask, abstracted as its dimensions plus the ordered
list of paste operations handed to the external image library: each
non-empty placement is pasted (as its own alpha) at
`(round(x - min_x), round(y - min_y))`. -/
structure MaskSpec where
  width : Int
  height : Int
  pastes : List (Int × Int × GlyphPlacement)
deriving DecidableEq, Repr

/-- `make_text_mask`: dimensions `max(1, round(max-min))` on both axes, then
one paste per placement with positive width and height. -/
def makeTextMask (bbox : BBoxQ) (ps : List GlyphPlacement) :
    MaskSpec × (Int × Int) :=
  let textWidth := max 1 (pyRound (bbox.maxX - bbox.minX))
  let textHeight := max 1 (pyRound (bbox.maxY - bbox.minY))
  let pastes :=
    (ps.filter (fun p => decide (0 < p.width) && decide (0 < p.height))).map
      (fun p => (pyRound (p.x - bbox.minX), pyRound (p.y - bbox.minY), p))
  (⟨textWidth, textHeight, pastes⟩, (textWidth, textHeight))

/-! ## build_avatar (source lines 141-219) -/

/-- `max_px = max(220, int(size * 0.70))` (source line 166). -/
def maxPx (size : Nat) : Nat := max 220 (size * 70 / 100)

/-- `min_px = max(64, int(size * 0.08))` (source line 167). -/
def minPx (size : Nat) : Nat := max 64 (size * 8 / 100)

/-- `step = max(2, int(size / 170))` (source line 168). -/
def stepPx (size : Nat) : Nat := max 2 (size / 170)

/-- `range(max_px, min_px - 1, -step)`: the descending candidate pixel
sizes, i.e. `max_px - i·step` for as long as the value stays `≥ min_px`. -/
def candidates (size : Nat) : List Nat :=
  if minPx size ≤ maxPx size then
    (List.range ((maxPx size - minPx size) / stepPx size + 1)).map
      (fun i => maxPx size - i * stepPx size)
  else []

/-- The auto-fit loop body (source lines 170-181): try each candidate in
order, skip EMPTY results, accept the first whose box fits the target and
stop.  Also returns the list of attempted sizes, in order, for the trace. -/
def fitLoop (upem : Nat) (gsrc : Nat → List ShapedGlyph) (targetW targetH : ℚ) :
    List Nat →
      List Nat × Option (Nat × BBoxQ × List GlyphPlacement × List String)
  | [] => ([], none)
  | px :: rest =>
    match shapeAndMeasure upem px (gsrc px) with
    | none =>
      let r := fitLoop upem gsrc targetW targetH rest
      (px :: r.1, r.2)
    | some (box, ps, ns) =>
      if box.maxX - box.minX ≤ targetW ∧ box.maxY - box.minY ≤ targetH then
        ([px], some (px, box, ps, ns))
      else
        let r := fitLoop upem gsrc targetW targetH rest
        (px :: r.1, r.2)

/-- Whether one candidate size would be accepted by the loop: a non-EMPTY
shaping result whose box fits the target rectangle. -/
def fitsB (upem : Nat) (gsrc : Nat → List ShapedGlyph) (targetW targetH : ℚ)
    (px : Nat) : Bool :=
  match shapeAndMeasure upem px (gsrc px) with
  | none => false
  | some (box, _, _) =>
    decide (box.maxX - box.minX ≤ targetW ∧ box.maxY - box.minY ≤ targetH)

/-- Lines 163-188: compute the targets, run the candidate loop, and on total
failure fall back to a fixed 220 px shaping pass, which is fatal only if it
is itself EMPTY (`none` here models the raised `RuntimeError`). -/
def chooseSize (upem : Nat) (gsrc : Nat → List ShapedGlyph) (size : Nat)
    (fitW fitH : ℚ) :
    List Nat × Option (Nat × BBoxQ × List GlyphPlacement × List String) :=
  let r := fitLoop upem gsrc ((size : ℚ) * fitW) ((size : ℚ) * fitH)
    (candidates size)
  match r.2 with
  | some c => (r.1, some c)
  | none =>
    match shapeAndMeasure upem 220 (gsrc 220) with
    | none => (r.1 ++ [220], none)
    | some (box, ps, ns) => (r.1 ++ [220], some (220, box, ps, ns))

/-- Externally observable steps of `build_avatar`, in program order. -/
inductive AvatarEvent
  | loadFont
  | shapeRun (px : Nat)
  | maskBuild
  | saveFile
deriving DecidableEq, Repr

/-- The fatal errors `build_avatar` can raise. -/
inductive BuildErr
  | noDrawableGlyphs
  | unsupportedShape (shape : String)
deriving DecidableEq, Repr

/-- Result of a `build_avatar` run: the ordered event trace, the text mask
dimensions once computed, and either a fatal error or the returned
`(font_px, glyph_names)` pair. -/
structure BuildOut where
  trace : List AvatarEvent
  textSize : Option (Int × Int)
  result : Except BuildErr (Nat × List String)

/-- `build_avatar`, with pixel compositing (canvas, circle mask, glow,
pastes) delegated to the external image library: the font is loaded first
(line 157), then the auto-fit search runs (lines 163-188), then the text
mask is built (line 191), and only then is the shape argument dispatched
(lines 193-203), raising `ValueError` for any shape other than `"circle"`
and `"square"`; on success the canvas is saved and `(font_px, glyph_names)`
returned (lines 216-219). -/
def buildAvatar (upem : Nat) (gsrc : Nat → List ShapedGlyph) (shape : String)
    (size : Nat) (fitW fitH : ℚ) : BuildOut :=
  let c := chooseSize upem gsrc size fitW fitH
  let evs := AvatarEvent.loadFont :: c.1.map AvatarEvent.shapeRun
  match c.2 with
  | none => ⟨evs, none, .error .noDrawableGlyphs⟩
  | some (fontPx, box, ps, ns) =>
    let m := makeTextMask box ps
    let evs := evs ++ [AvatarEvent.maskBuild]
    if shape = "circle" then
      ⟨evs ++ [AvatarEvent.saveFile], some m.2, .ok (fontPx, ns)⟩
    else if shape = "square" then
      ⟨evs ++ [AvatarEvent.saveFile], some m.2, .ok (fontPx, ns)⟩
    else
      ⟨evs, some m.2, .error (.unsupportedShape shape)⟩

/-- The CLI `--shape` argument (source line 230):
`parser.add_argument("--shape", choices=["circle", "square"], ...)`;
argparse rejects any value outside `choices` at parse time. -/
def parseShapeArg (s : String) : Option String :=
  if s = "circle" ∨ s = "square" then some s else none

/-! ## Character and parsing lemmas -/

lemma hexVal_char_range {c : Char} {v : Nat} (h : hexVal c = some v) :
    ((48 ≤ c.toNat ∧ c.toNat ≤ 57) ∨ (97 ≤ c.toNat ∧ c.toNat ≤ 102) ∨
      (65 ≤ c.toNat ∧ c.toNat ≤ 70)) ∧ v ≤ 15 := by
  unfold hexVal at h
  split at h
  next hc => exact ⟨Or.inl hc, by injection h with h'; omega⟩
  next =>
    split at h
    next hc => exact ⟨Or.inr (Or.inl hc), by injection h with h'; omega⟩
    next =>
      split at h
      next hc => exact ⟨Or.inr (Or.inr hc), by injection h with h'; omega⟩
      next => exact Option.noConfusion h

lemma hex_char_props {c : Char} {v : Nat} (h : hexVal c = some v) :
    isPySpace c = false ∧ c ≠ '+' ∧ c ≠ '-' ∧ c ≠ '_' ∧ c ≠ '#' := by
  obtain ⟨hr, -⟩ := hexVal_char_range h
  refine ⟨?_, ?_, ?_, ?_, ?_⟩
  · simp only [isPySpace, decide_eq_false_iff_not]
    rcases hr with ⟨ha, hb⟩ | ⟨ha, hb⟩ | ⟨ha, hb⟩ <;> omega
  · intro he
    rw [he, show ('+').toNat = 43 from rfl] at hr
    rcases hr with ⟨ha, hb⟩ | ⟨ha, hb⟩ | ⟨ha, hb⟩ <;> omega
  · intro he
    rw [he, show ('-').toNat = 45 from rfl] at hr
    rcases hr with ⟨ha, hb⟩ | ⟨ha, hb⟩ | ⟨ha, hb⟩ <;> omega
  · intro he
    rw [he, show ('_').toNat = 95 from rfl] at hr
    rcases hr with ⟨ha, hb⟩ | ⟨ha, hb⟩ | ⟨ha, hb⟩ <;> omega
  · intro he
    rw [he, show ('#').toNat = 35 from rfl] at hr
    rcases hr with ⟨ha, hb⟩ | ⟨ha, hb⟩ | ⟨ha, hb⟩ <;> omega

lemma dropWhile_eq_self_of_all {p : Char → Bool} {l : List Char}
    (h : ∀ c ∈ l, p c = false) : l.dropWhile p = l := by
  cases l with
  | nil => rfl
  | cons a t =>
    rw [List.dropWhile_cons, h a (List.mem_cons_self a t)]
    simp

lemma pyStrip_eq_self {l : List Char} (h : ∀ c ∈ l, isPySpace c = false) :
    pyStrip l = l := by
  unfold pyStrip
  rw [dropWhile_eq_self_of_all h,
    dropWhile_eq_self_of_all (fun c hc => h c (List.mem_reverse.mp hc))]
  exact List.reverse_reverse l

lemma digitsNum_pair {base : Nat} {val : Char → Option Nat} {d1 d2 : Char}
    {v1 v2 : Nat} (h1 : val d1 = some v1) (h2 : val d2 = some v2)
    (hu2 : d2 ≠ '_') :
    digitsNum base val [d1, d2] = some (v1 * base + v2) := by
  simp only [digitsNum, h1]
  simp only [digitsRest, if_neg hu2, h2]

lemma pyIntHex_pair {d1 d2 : Char} {v1 v2 : Nat}
    (h1 : hexVal d1 = some v1) (h2 : hexVal d2 = some v2) :
    pyIntOfChars 16 hexVal [d1, d2] = some ((v1 * 16 + v2 : Nat) : Int) := by
  obtain ⟨hs1, hp1, hm1, -, -⟩ := hex_char_props h1
  obtain ⟨hs2, -, -, hu2, -⟩ := hex_char_props h2
  have hstrip : pyStrip [d1, d2] = [d1, d2] := by
    apply pyStrip_eq_self
    intro c hc
    rcases List.mem_cons.mp hc with rfl | hc2
    · exact hs1
    · rcases List.mem_cons.mp hc2 with rfl | hc3
      · exact hs2
      · exact absurd hc3 (List.not_mem_nil c)
  unfold pyIntOfChars
  rw [hstrip]
  simp only [if_neg hp1, if_neg hm1, digitsNum_pair h1 h2 hu2, Option.map_some']
  rfl

lemma parseColor_of_digits {s : List Char} {alpha : Int}
    {d1 d2 d3 d4 d5 d6 : Char} {v1 v2 v3 v4 v5 v6 : Nat}
    (hs : stripHash (pyStrip s) = [d1, d2, d3, d4, d5, d6])
    (h1 : hexVal d1 = some v1) (h2 : hexVal d2 = some v2)
    (h3 : hexVal d3 = some v3) (h4 : hexVal d4 = some v4)
    (h5 : hexVal d5 = some v5) (h6 : hexVal d6 = some v6) :
    parseColor s alpha
      = some (((v1 * 16 + v2 : Nat) : Int), ((v3 * 16 + v4 : Nat) : Int),
          ((v5 * 16 + v6 : Nat) : Int), alpha) := by
  unfold parseColor
  rw [hs]
  rw [if_pos (show ([d1, d2, d3, d4, d5, d6] : List Char).length = 6 from rfl)]
  have ht1 : ([d1, d2, d3, d4, d5, d6] : List Char).take 2 = [d1, d2] := rfl
  have ht2 : (([d1, d2, d3, d4, d5, d6] : List Char).drop 2).take 2 = [d3, d4] := rfl
  have ht3 : (([d1, d2, d3, d4, d5, d6] : List Char).drop 4).take 2 = [d5, d6] := rfl
  rw [ht1, ht2, ht3, pyIntHex_pair h1 h2, pyIntHex_pair h3 h4, pyIntHex_pair h5 h6]

/-- Claim C3 (corrected): a string that is an optional leading `#` followed
by exactly 6 hex digits parses to exactly the three base-16 channel values,
each in `[0, 255]`; and any string whose post-strip, post-`#` form does not
have length 6 fails.  However — contrary to the claim — a length-6 string
need not consist of hex digits to parse: each two-character slice is handed
to Python `int(·, 16)`, which also accepts a sign or interior whitespace
within the slice (see the counterexample). -/
theorem claim_C3_amended :
    (∀ (pre : List Char) (d1 d2 d3 d4 d5 d6 : Char)
        (v1 v2 v3 v4 v5 v6 : Nat) (alpha : Int),
      (pre = [] ∨ pre = ['#']) →
      hexVal d1 = some v1 → hexVal d2 = some v2 → hexVal d3 = some v3 →
      hexVal d4 = some v4 → hexVal d5 = some v5 → hexVal d6 = some v6 →
      parseColor (pre ++ [d1, d2, d3, d4, d5, d6]) alpha
          = some (((v1 * 16 + v2 : Nat) : Int), ((v3 * 16 + v4 : Nat) : Int),
              ((v5 * 16 + v6 : Nat) : Int), alpha)
        ∧ (0 : Int) ≤ ((v1 * 16 + v2 : Nat) : Int)
        ∧ ((v1 * 16 + v2 : Nat) : Int) ≤ 255
        ∧ (0 : Int) ≤ ((v3 * 16 + v4 : Nat) : Int)
        ∧ ((v3 * 16 + v4 : Nat) : Int) ≤ 255
        ∧ (0 : Int) ≤ ((v5 * 16 + v6 : Nat) : Int)
        ∧ ((v5 * 16 + v6 : Nat) : Int) ≤ 255)
    ∧ (∀ (s : List Char) (alpha : Int),
        (stripHash (pyStrip s)).length ≠ 6 → parseColor s alpha = none) := by
  constructor
  · intro pre d1 d2 d3 d4 d5 d6 v1 v2 v3 v4 v5 v6 alpha hpre h1 h2 h3 h4 h5 h6
    have hb1 := (hexVal_char_range h1).2
    have hb2 := (hexVal_char_range h2).2
    have hb3 := (hexVal_char_range h3).2
    have hb4 := (hexVal_char_range h4).2
    have hb5 := (hexVal_char_range h5).2
    have hb6 := (hexVal_char_range h6).2
    have hds : ∀ c ∈ ([d1, d2, d3, d4, d5, d6] : List Char),
        isPySpace c = false := by
      intro c hc
      simp only [List.mem_cons, List.not_mem_nil, or_false] at hc
      rcases hc with rfl | rfl | rfl | rfl | rfl | rfl
      · exact (hex_char_props h1).1
      · exact (hex_char_props h2).1
      · exact (hex_char_props h3).1
      · exact (hex_char_props h4).1
      · exact (hex_char_props h5).1
      · exact (hex_char_props h6).1
    have hmain : stripHash (pyStrip (pre ++ [d1, d2, d3, d4, d5, d6]))
        = [d1, d2, d3, d4, d5, d6] := by
      rcases hpre with rfl | rfl
      · rw [List.nil_append, pyStrip_eq_self hds]
        simp only [stripHash, if_neg (hex_char_props h1).2.2.2.2]
      · have : pyStrip ('#' :: [d1, d2, d3, d4, d5, d6]) =
            '#' :: [d1, d2, d3, d4, d5, d6] := by
          apply pyStrip_eq_self
          intro c hc
          rcases List.mem_cons.mp hc with rfl | hc2
          · decide
          · exact hds c hc2
        rw [List.singleton_append, this]
        simp [stripHash]
    refine ⟨parseColor_of_digits hmain h1 h2 h3 h4 h5 h6, ?_, ?_, ?_, ?_, ?_, ?_⟩
      <;> omega
  · intro s alpha h
    unfold parseColor
    rw [if_neg h]

/-- Claim C3 counterexample: `"+a1122"` is not six hex digits after
stripping `#` (its first character is a sign), yet `parse_color` does not
raise — Python `int("+a", 16)` accepts the sign and returns 10. -/
theorem claim_C3_counterexample :
    parseColor ['+', 'a', '1', '1', '2', '2'] 255 = some (10, 17, 34, 255)
    ∧ ((stripHash (pyStrip ['+', 'a', '1', '1', '2', '2'])).all
        (fun c => (hexVal c).isSome)) = false := by
  constructor <;> decide

/-- Witness for claim C3: the default background color `#2E3440` parses to
`(46, 52, 64)`. -/
theorem claim_C3_witness :
    parseColor ['#', '2', 'E', '3', '4', '4', '0'] 255
      = some (46, 52, 64, 255) := by
  have h := (claim_C3_amended.1 ['#'] '2' 'E' '3' '4' '4' '0' 2 14 3 4 4 0 255
    (Or.inr rfl) (by decide) (by decide) (by decide) (by decide) (by decide)
    (by decide)).1
  simpa using h

/-! ## Feature-dictionary lemmas -/

/-- Applying one parsed token entry to the dict. -/
def applyEntry (d : List (List Char × Int)) (e : List Char × Int) :
    List (List Char × Int) :=
  dictSet d e.1 e.2

lemma dictFind_map_some {d : List (List Char × Int)} {k : List Char} {v : Int}
    (h : d.any (fun p => decide (p.1 = k)) = true) :
    (d.map (fun p => if p.1 = k then (k, v) else p)).find?
        (fun p => decide (p.1 = k)) = some (k, v) := by
  induction d with
  | nil => simp at h
  | cons a t ih =>
    simp only [List.map_cons]
    by_cases ha : a.1 = k
    · rw [if_pos ha, List.find?_cons_of_pos _ (by simp)]
    · rw [if_neg ha, List.find?_cons_of_neg _ (by simpa using ha)]
      apply ih
      simp only [List.any_cons, Bool.or_eq_true, decide_eq_true_eq] at h
      rcases h with h | h
      · exact absurd h ha
      · exact h

lemma dictFind_map_ne {d : List (List Char × Int)} {k q : List Char} {v : Int}
    (hq : q ≠ k) :
    (d.map (fun p => if p.1 = k then (k, v) else p)).find?
        (fun p => decide (p.1 = q))
      = d.find? (fun p => decide (p.1 = q)) := by
  induction d with
  | nil => rfl
  | cons a t ih =>
    simp only [List.map_cons]
    by_cases ha : a.1 = k
    · rw [if_pos ha,
        List.find?_cons_of_neg _ (by simpa using Ne.symm hq),
        List.find?_cons_of_neg _ (by simp [ha]; exact Ne.symm hq)]
      exact ih
    · rw [if_neg ha]
      by_cases haq : a.1 = q
      · rw [List.find?_cons_of_pos _ (by simpa using haq),
          List.find?_cons_of_pos _ (by simpa using haq)]
      · rw [List.find?_cons_of_neg _ (by simpa using haq),
          List.find?_cons_of_neg _ (by simpa using haq)]
        exact ih

lemma dictGet_dictSet (d : List (List Char × Int)) (k : List Char) (v : Int)
    (q : List Char) :
    dictGet (dictSet d k v) q = if q = k then some v else dictGet d q := by
  unfold dictGet dictSet
  by_cases hq : q = k
  · subst hq
    rw [if_pos rfl]
    by_cases h : d.any (fun p => decide (p.1 = q)) = true
    · rw [if_pos h, dictFind_map_some h]
      rfl
    · rw [if_neg h, List.find?_append]
      have hnone : d.find? (fun p => decide (p.1 = q)) = none := by
        rw [List.find?_eq_none]
        intro p hp hpq
        exact h (List.any_eq_true.mpr ⟨p, hp, hpq⟩)
      rw [hnone]
      simp
  · rw [if_neg hq]
    by_cases h : d.any (fun p => decide (p.1 = k)) = true
    · rw [if_pos h, dictFind_map_ne hq]
    · rw [if_neg h, List.find?_append]
      have hlast : ([(k, v)] : List (List Char × Int)).find?
          (fun p => decide (p.1 = q)) = none := by
        rw [List.find?_eq_none]
        intro p hp
        simp only [List.mem_singleton] at hp
        subst hp
        simpa using Ne.symm hq
      rw [hlast]
      simp

lemma dictGet_foldl (tag : List Char) (entries : List (List Char × Int)) :
    ∀ d0 : List (List Char × Int),
    dictGet (entries.foldl applyEntry d0) tag =
      ((entries.filter (fun e => decide (e.1 = tag))).getLast?).elim
        (dictGet d0 tag) (fun e => some e.2) := by
  induction entries with
  | nil => intro d0; rfl
  | cons e es ih =>
    intro d0
    rw [List.foldl_cons, ih, List.filter_cons]
    by_cases he : e.1 = tag
    · rw [if_pos (by simpa using he)]
      rcases hfe : es.filter (fun x => decide (x.1 = tag)) with - | ⟨x, xs⟩
      · rw [hfe]
        simp [applyEntry, dictGet_dictSet, he]
      · rw [hfe, List.getLast?_cons_cons,
          List.getLast?_eq_getLast (x :: xs) (by simp)]
        rfl
    · rw [if_neg (by simpa using he)]
      rcases hfe : es.filter (fun x => decide (x.1 = tag)) with - | ⟨x, xs⟩
      · rw [hfe]
        simp [applyEntry, dictGet_dictSet, Ne.symm he]
      · rw [hfe, List.getLast?_eq_getLast (x :: xs) (by simp)]
        rfl

lemma featStep_some {d d' : List (List Char × Int)} {item : List Char}
    (h : featStep d item = some d') :
    (tokenEntry item = none ∧ d' = d)
    ∨ ∃ e, tokenEntry item = some e ∧ d' = applyEntry d e := by
  simp only [featStep] at h
  simp only [tokenEntry]
  split at h
  next htok =>
    rw [if_pos htok]
    exact Or.inl ⟨rfl, (Option.some.inj h).symm⟩
  next htok =>
    rw [if_neg htok]
    split at h
    next hcont =>
      rw [if_pos hcont]
      split at h
      next v hv =>
        exact Or.inr ⟨_, rfl, (Option.some.inj h).symm⟩
      next hv => exact Option.noConfusion h
    next hcont =>
      rw [if_neg hcont]
      exact Or.inr ⟨_, rfl, (Option.some.inj h).symm⟩

lemma parseFeatures_foldl {items : List (List Char)} :
    ∀ {d0 d : List (List Char × Int)},
    items.foldlM featStep d0 = some d →
    d = (items.filterMap tokenEntry).foldl applyEntry d0 := by
  induction items with
  | nil =>
    intro d0 d h
    exact ((Option.some.inj h).symm : d = d0)
  | cons item rest ih =>
    intro d0 d h
    rw [List.foldlM_cons] at h
    cases hstep : featStep d0 item with
    | none =>
      rw [hstep] at h
      exact Option.noConfusion h
    | some d1 =>
      rw [hstep] at h
      simp only [Option.bind_eq_bind, Option.some_bind] at h
      rcases featStep_some hstep with ⟨hnone, rfl⟩ | ⟨e, hsome, rfl⟩
      · rw [List.filterMap_cons, hnone]
        exact ih h
      · rw [List.filterMap_cons, hsome, List.foldl_cons]
        exact ih h

/-- Claim C10: when the same tag occurs in more than one token of the
feature spec, a successful `parse_features` maps that tag to the value of
its last occurrence — later tokens overwrite earlier ones. -/
theorem claim_C10 (s : List Char) (d : List (List Char × Int))
    (tag : List Char) (hparse : parseFeatures s = some d)
    (hdup : 2 ≤ (((splitOn ',' s).filterMap tokenEntry).filter
        (fun e => decide (e.1 = tag))).length) :
    dictGet d tag =
      ((((splitOn ',' s).filterMap tokenEntry).filter
          (fun e => decide (e.1 = tag))).getLast?).map (fun e => e.2) := by
  have hd : d = (((splitOn ',' s).filterMap tokenEntry)).foldl applyEntry [] :=
    parseFeatures_foldl hparse
  rw [hd, dictGet_foldl]
  rcases hfe : ((splitOn ',' s).filterMap tokenEntry).filter
      (fun e => decide (e.1 = tag)) with - | ⟨x, xs⟩
  · rw [hfe] at hdup
    exact absurd hdup (by decide)
  · rw [hfe] at hdup ⊢
    rw [List.getLast?_eq_getLast (x :: xs) (by simp)]
    rfl

/-- Witness for claim C10: in `"liga=1,calt=0,liga=3"` the tag `liga`
appears twice; parsing succeeds and maps `liga` to 3 (the last value). -/
theorem claim_C10_witness :
    parseFeatures
        ['l', 'i', 'g', 'a', '=', '1', ',', 'c', 'a', 'l', 't', '=', '0',
          ',', 'l', 'i', 'g', 'a', '=', '3']
      = some [(['l', 'i', 'g', 'a'], 3), (['c', 'a', 'l', 't'], 0)]
    ∧ dictGet [(['l', 'i', 'g', 'a'], 3), (['c', 'a', 'l', 't'], 0)]
        ['l', 'i', 'g', 'a'] = some 3 := by
  refine ⟨by decide, ?_⟩
  have h := claim_C10
    ['l', 'i', 'g', 'a', '=', '1', ',', 'c', 'a', 'l', 't', '=', '0',
      ',', 'l', 'i', 'g', 'a', '=', '3']
    [(['l', 'i', 'g', 'a'], 3), (['c', 'a', 'l', 't'], 0)]
    ['l', 'i', 'g', 'a'] (by decide) (by decide)
  rw [h]
  decide

/-! ## Shaping-loop lemmas -/

lemma samLoop_eq (scale : ℚ) (gs : List ShapedGlyph) :
    ∀ (penX : ℚ) (box : Option BBoxQ) (ps : List GlyphPlacement)
      (ns : List String),
    samLoop scale gs penX box ps ns =
      ((placementsFrom scale penX gs).foldl glyphBoxStep box,
        ps ++ placementsFrom scale penX gs,
        ns ++ gs.map glyphLabel) := by
  induction gs with
  | nil =>
    intro penX box ps ns
    simp [samLoop, placementsFrom]
  | cons g rest ih =>
    intro penX box ps ns
    simp only [samLoop, ih, placementsFrom, List.map_cons, List.foldl_cons,
      List.append_assoc, List.singleton_append]
    simp only [glyphBoxStep, placeGlyph]

lemma placementsFrom_length (scale : ℚ) (gs : List ShapedGlyph) :
    ∀ penX : ℚ, (placementsFrom scale penX gs).length = gs.length := by
  induction gs with
  | nil => intro penX; rfl
  | cons g rest ih =>
    intro penX
    simp [placementsFrom, ih]

lemma placementsFrom_getElem? (scale : ℚ) (gs : List ShapedGlyph) :
    ∀ (penX : ℚ) (i : Nat) (g : ShapedGlyph), gs[i]? = some g →
    (placementsFrom scale penX gs)[i]?
      = some (placeGlyph scale (penX + sumAdv scale (gs.take i)) g) := by
  induction gs with
  | nil =>
    intro penX i g h
    simp at h
  | cons g0 rest ih =>
    intro penX i g h
    cases i with
    | zero =>
      simp only [List.getElem?_cons_zero, Option.some.injEq] at h
      subst h
      simp [placementsFrom, sumAdv]
    | succ n =>
      simp only [List.getElem?_cons_succ] at h
      simp only [placementsFrom, List.getElem?_cons_succ]
      rw [ih _ n g h]
      have hpen : penX + (g0.xAdvance : ℚ) * scale + sumAdv scale (rest.take n)
          = penX + sumAdv scale ((g0 :: rest).take (n + 1)) := by
        simp only [List.take_succ_cons, sumAdv, List.map_cons, List.sum_cons]
        ring
      rw [hpen]

lemma foldl_glyphBoxStep_isSome (ps : List GlyphPlacement) :
    ∀ b : BBoxQ, ps.foldl glyphBoxStep (some b) ≠ none := by
  induction ps with
  | nil => intro b h; exact Option.noConfusion h
  | cons p rest ih =>
    intro b
    rw [List.foldl_cons]
    by_cases hc : 0 < p.width ∧ 0 < p.height
    · rw [show glyphBoxStep (some b) p
          = if 0 < p.width ∧ 0 < p.height then
              mergeBox (some b) p.x p.y p.width p.height
            else some b from rfl,
        if_pos hc]
      exact ih _
    · rw [show glyphBoxStep (some b) p
          = if 0 < p.width ∧ 0 < p.height then
              mergeBox (some b) p.x p.y p.width p.height
            else some b from rfl,
        if_neg hc]
      exact ih b

lemma foldl_glyphBoxStep_none_iff (ps : List GlyphPlacement) :
    ps.foldl glyphBoxStep none = none
      ↔ ∀ p ∈ ps, ¬(0 < p.width ∧ 0 < p.height) := by
  induction ps with
  | nil => simp
  | cons p rest ih =>
    rw [List.foldl_cons,
      show glyphBoxStep none p
        = if 0 < p.width ∧ 0 < p.height then
            mergeBox none p.x p.y p.width p.height
          else none from rfl]
    by_cases hc : 0 < p.width ∧ 0 < p.height
    · rw [if_pos hc,
        show mergeBox none p.x p.y p.width p.height
          = some ⟨p.x, p.y, p.x + (p.width : ℚ), p.y + (p.height : ℚ)⟩ from rfl]
      simp only [List.mem_cons]
      constructor
      · intro h
        exact absurd h (foldl_glyphBoxStep_isSome rest _)
      · intro h
        exact absurd hc (h p (Or.inl rfl))
    · rw [if_neg hc, ih]
      simp only [List.mem_cons]
      constructor
      · intro h q hq
        rcases hq with rfl | hq
        · exact hc
        · exact h q hq
      · intro h q hq
        exact h q (Or.inr hq)

lemma placementsFrom_cond (scale : ℚ) (gs : List ShapedGlyph) :
    ∀ penX : ℚ,
    (∀ p ∈ placementsFrom scale penX gs, ¬(0 < p.width ∧ 0 < p.height))
      ↔ ∀ g ∈ gs, ¬(0 < g.width ∧ 0 < g.rows) := by
  induction gs with
  | nil => intro penX; simp [placementsFrom]
  | cons g rest ih =>
    intro penX
    simp only [placementsFrom, List.mem_cons]
    constructor
    · intro h q hq
      rcases hq with rfl | hq
      · exact h (placeGlyph scale penX q) (Or.inl rfl)
      · exact (ih _).mp (fun p hp => h p (Or.inr hp)) q hq
    · intro h p hp
      rcases hp with rfl | hp
      · exact h g (Or.inl rfl)
      · exact (ih _).mpr (fun q hq => h q (Or.inr hq)) p hp

lemma shapeAndMeasure_none_iff (upem px : Nat) (gs : List ShapedGlyph) :
    shapeAndMeasure upem px gs = none
      ↔ ∀ g ∈ gs, ¬(0 < g.width ∧ 0 < g.rows) := by
  unfold shapeAndMeasure
  rw [samLoop_eq]
  cases hb : (placementsFrom (scaleOf upem px) 0 gs).foldl glyphBoxStep none with
  | none =>
    exact iff_of_true rfl
      ((placementsFrom_cond (scaleOf upem px) gs 0).mp
        ((foldl_glyphBoxStep_none_iff _).mp hb))
  | some b =>
    refine iff_of_false (fun habs => Option.noConfusion habs) (fun h => ?_)
    have hnone : (placementsFrom (scaleOf upem px) 0 gs).foldl glyphBoxStep none
        = none :=
      (foldl_glyphBoxStep_none_iff _).mpr
        ((placementsFrom_cond (scaleOf upem px) gs 0).mpr h)
    rw [hb] at hnone
    exact Option.noConfusion hnone

lemma shapeAndMeasure_some (upem px : Nat) (gs : List ShapedGlyph)
    (box : BBoxQ) (ps : List GlyphPlacement) (ns : List String)
    (h : shapeAndMeasure upem px gs = some (box, ps, ns)) :
    ps = placementsFrom (scaleOf upem px) 0 gs
    ∧ ns = gs.map glyphLabel
    ∧ boxOfPlacements ps = some box := by
  unfold shapeAndMeasure at h
  rw [samLoop_eq] at h
  cases hb : (placementsFrom (scaleOf upem px) 0 gs).foldl glyphBoxStep none with
  | none =>
    rw [hb] at h
    exact Option.noConfusion h
  | some b =>
    rw [hb] at h
    simp only [List.nil_append, Option.some.injEq, Prod.mk.injEq] at h
    obtain ⟨hbox, hps, hns⟩ := h
    subst hbox
    refine ⟨hps.symm, hns.symm, ?_⟩
    rw [hps.symm]
    exact hb

lemma foldl_glyphBoxStep_filter (ps : List GlyphPlacement) :
    ∀ b : Option BBoxQ,
    (ps.filter (fun p => decide (0 < p.width) && decide (0 < p.height))).foldl
        glyphBoxStep b
      = ps.foldl glyphBoxStep b := by
  induction ps with
  | nil => intro b; rfl
  | cons p rest ih =>
    intro b
    rw [List.filter_cons]
    by_cases hc : 0 < p.width ∧ 0 < p.height
    · rw [if_pos (by simp [hc.1, hc.2]), List.foldl_cons, List.foldl_cons, ih]
    · have hcb : (decide (0 < p.width) && decide (0 < p.height)) = false := by
        rcases Nat.lt_or_ge 0 p.width with hw | hw
        · rcases Nat.lt_or_ge 0 p.height with hh | hh
          · exact absurd ⟨hw, hh⟩ hc
          · simp [Nat.le_zero.mp hh]
        · simp [Nat.le_zero.mp hw]
      rw [if_neg (by simp [hcb]), List.foldl_cons, ih]
      unfold glyphBoxStep
      rw [if_neg hc]

lemma placementsFrom_map_yAdv (scale : ℚ) (newAdv : ShapedGlyph → Int)
    (gs : List ShapedGlyph) :
    ∀ penX : ℚ,
    placementsFrom scale penX (gs.map (fun g => { g with yAdvance := newAdv g }))
      = placementsFrom scale penX gs := by
  induction gs with
  | nil => intro penX; rfl
  | cons g rest ih =>
    intro penX
    simp only [List.map_cons, placementsFrom]
    rw [show ({ g with yAdvance := newAdv g } : ShapedGlyph).xAdvance
        = g.xAdvance from rfl, ih]
    rfl

lemma labels_map_yAdv (newAdv : ShapedGlyph → Int) (gs : List ShapedGlyph) :
    (gs.map (fun g => { g with yAdvance := newAdv g })).map glyphLabel
      = gs.map glyphLabel := by
  rw [List.map_map]
  rfl

/-- Claim C5: `shape_and_measure` returns EMPTY iff no glyph has a bitmap
with positive width and height (vacuously so for an empty glyph list);
otherwise the bounding box is accumulated only over the placements with
non-zero bitmap area, while every shaped glyph — empty bitmaps included —
contributes a placement record and advances the pen by its scaled
`x_advance` (visible in the pen-prefix sum of each placement's `x`). -/
theorem claim_C5 (upem px : Nat) (gs : List ShapedGlyph) :
    (shapeAndMeasure upem px gs = none
      ↔ ∀ g ∈ gs, ¬(0 < g.width ∧ 0 < g.rows))
    ∧ ∀ box ps ns, shapeAndMeasure upem px gs = some (box, ps, ns) →
        ps.length = gs.length
        ∧ boxOfPlacements (ps.filter
            (fun p => decide (0 < p.width) && decide (0 < p.height)))
          = some box
        ∧ ∀ i g, gs[i]? = some g → ∃ p, ps[i]? = some p
            ∧ p.width = g.width ∧ p.height = g.rows ∧ p.buffer = g.buffer
            ∧ p.x = sumAdv (scaleOf upem px) (gs.take i)
                + (g.xOffset : ℚ) * scaleOf upem px + (g.bitmapLeft : ℚ) := by
  refine ⟨shapeAndMeasure_none_iff upem px gs, ?_⟩
  intro box ps ns h
  obtain ⟨hps, hns, hbox⟩ := shapeAndMeasure_some upem px gs box ps ns h
  subst hps
  refine ⟨placementsFrom_length _ gs 0, ?_, ?_⟩
  · unfold boxOfPlacements
    rw [foldl_glyphBoxStep_filter]
    exact hbox
  · intro i g hg
    refine ⟨placeGlyph (scaleOf upem px)
        (0 + sumAdv (scaleOf upem px) (gs.take i)) g,
      placementsFrom_getElem? _ gs 0 i g hg, rfl, rfl, rfl, ?_⟩
    simp [placeGlyph]

/-- Witness for claim C5: a space glyph (empty bitmap, advance 600) followed
by an inked glyph at `upem = 1000`, `px_size = 500` (scale ½): the result is
non-EMPTY, both glyphs get placements, and the second glyph's `x` includes
the space's advance (300). -/
theorem claim_C5_witness :
    shapeAndMeasure 1000 500
        [⟨1, 600, 0, 0, 0, 0, 0, 0, 0, [], some "space"⟩,
          ⟨7, 500, 0, 0, 0, 4, 6, 1, 5, [], some "gA"⟩]
      = some (⟨301, -5, 305, 1⟩,
          [⟨0, 0, 0, 0, []⟩, ⟨301, -5, 4, 6, []⟩], ["space", "gA"])
    ∧ ([⟨0, 0, 0, 0, []⟩, ⟨301, -5, 4, 6, []⟩] : List GlyphPlacement).length
        = 2 := by
  have hrun : shapeAndMeasure 1000 500
      [⟨1, 600, 0, 0, 0, 0, 0, 0, 0, [], some "space"⟩,
        ⟨7, 500, 0, 0, 0, 4, 6, 1, 5, [], some "gA"⟩]
    = some (⟨301, -5, 305, 1⟩,
        [⟨0, 0, 0, 0, []⟩, ⟨301, -5, 4, 6, []⟩], ["space", "gA"]) := by
    with_unfolding_all decide
  have h := (claim_C5 1000 500
    [⟨1, 600, 0, 0, 0, 0, 0, 0, 0, [], some "space"⟩,
      ⟨7, 500, 0, 0, 0, 4, 6, 1, 5, [], some "gA"⟩]).2
    ⟨301, -5, 305, 1⟩ [⟨0, 0, 0, 0, []⟩, ⟨301, -5, 4, 6, []⟩]
    ["space", "gA"] hrun
  exact ⟨hrun, h.1⟩

/-- Claim C7: in a non-EMPTY shaping pass every placement sits at
`gx = pen_x + x_offset·scale + bitmap_left` and
`gy = -y_offset·scale - bitmap_top`, where `scale = px_size/upem` and
`pen_x` is the sum of the scaled advances of all preceding glyphs (the y
negation converting baseline-relative y-up shaping coordinates to y-down
image coordinates). -/
theorem claim_C7 (upem px : Nat) (gs : List ShapedGlyph) (box : BBoxQ)
    (ps : List GlyphPlacement) (ns : List String)
    (h : shapeAndMeasure upem px gs = some (box, ps, ns)) :
    ∀ i g, gs[i]? = some g → ∃ p, ps[i]? = some p
      ∧ p.x = sumAdv (scaleOf upem px) (gs.take i)
          + (g.xOffset : ℚ) * scaleOf upem px + (g.bitmapLeft : ℚ)
      ∧ p.y = -((g.yOffset : ℚ) * scaleOf upem px) - (g.bitmapTop : ℚ) := by
  obtain ⟨hps, -, -⟩ := shapeAndMeasure_some upem px gs box ps ns h
  subst hps
  intro i g hg
  refine ⟨_, placementsFrom_getElem? _ gs 0 i g hg, ?_, ?_⟩ <;>
    simp [placeGlyph]

/-- Witness for claim C7: two glyphs with non-zero offsets and bearings at
scale ½; the second placement lands at `x = 303`, `y = -21` as the formula
dictates. -/
theorem claim_C7_witness :
    ∃ p, ([⟨21, 6, 2, 3, []⟩, ⟨303, -21, 5, 7, []⟩]
        : List GlyphPlacement)[1]? = some p
      ∧ p.x = (303 : ℚ) ∧ p.y = (-21 : ℚ) := by
  obtain ⟨p, hp, hx, hy⟩ := claim_C7 1000 500
    [⟨3, 600, 0, 40, -20, 2, 3, 1, 4, [], some "gB"⟩,
      ⟨9, 0, 0, 10, 30, 5, 7, -2, 6, [], none⟩]
    ⟨21, -21, 308, 9⟩ [⟨21, 6, 2, 3, []⟩, ⟨303, -21, 5, 7, []⟩] ["gB", "9"]
    (by with_unfolding_all decide) 1 ⟨9, 0, 0, 10, 30, 5, 7, -2, 6, [], none⟩
    (by decide)
  refine ⟨p, hp, ?_, ?_⟩
  · rw [hx]; with_unfolding_all decide
  · rw [hy]; with_unfolding_all decide

/-- Claim C9: `shape_and_measure` never reads the shaper's `y_advance`:
replacing every glyph's `y_advance` by anything leaves the whole result
unchanged, and each placement's vertical position is
`-y_offset·scale - bitmap_top`, depending only on that glyph's own offset
and bearing, never on the advances of preceding glyphs. -/
theorem claim_C9 (upem px : Nat) (gs : List ShapedGlyph) :
    (∀ newAdv : ShapedGlyph → Int,
      shapeAndMeasure upem px
        (gs.map (fun g => { g with yAdvance := newAdv g }))
        = shapeAndMeasure upem px gs)
    ∧ ∀ (box : BBoxQ) (ps : List GlyphPlacement) (ns : List String),
        shapeAndMeasure upem px gs = some (box, ps, ns) →
        ∀ (i : Nat) (g : ShapedGlyph), gs[i]? = some g →
          ∃ p, ps[i]? = some p
            ∧ p.y = -((g.yOffset : ℚ) * scaleOf upem px) - (g.bitmapTop : ℚ) := by
  constructor
  · intro newAdv
    unfold shapeAndMeasure
    rw [samLoop_eq, samLoop_eq, placementsFrom_map_yAdv, labels_map_yAdv]
  · intro box ps ns h i g hg
    obtain ⟨hps, -, -⟩ := shapeAndMeasure_some upem px gs box ps ns h
    subst hps
    refine ⟨_, placementsFrom_getElem? _ gs 0 i g hg, ?_⟩
    simp [placeGlyph]

/-- Witness for claim C9: setting `y_advance = 7` on a glyph changes
nothing, and its placement's `y` is 6 (`-(-20·½) - 4`). -/
theorem claim_C9_witness :
    shapeAndMeasure 1000 500 [⟨3, 600, 7, 40, -20, 2, 3, 1, 4, [], some "gB"⟩]
      = shapeAndMeasure 1000 500 [⟨3, 600, 0, 40, -20, 2, 3, 1, 4, [], some "gB"⟩]
    ∧ ∃ p, ([⟨21, 6, 2, 3, []⟩] : List GlyphPlacement)[0]? = some p
        ∧ p.y = (6 : ℚ) := by
  constructor
  · exact (claim_C9 1000 500
      [⟨3, 600, 0, 40, -20, 2, 3, 1, 4, [], some "gB"⟩]).1 (fun _ => 7)
  · obtain ⟨p, hp, hy⟩ := (claim_C9 1000 500
      [⟨3, 600, 0, 40, -20, 2, 3, 1, 4, [], some "gB"⟩]).2
      ⟨21, 6, 23, 9⟩ [⟨21, 6, 2, 3, []⟩] ["gB"] (by with_unfolding_all decide) 0
      ⟨3, 600, 0, 40, -20, 2, 3, 1, 4, [], some "gB"⟩ (by decide)
    exact ⟨p, hp, by rw [hy]; with_unfolding_all decide⟩

/-! ## Candidate-sequence lemmas -/

lemma stepPx_pos (size : Nat) : 0 < stepPx size :=
  lt_of_lt_of_le (by norm_num) (le_max_left 2 _)

lemma minPx_le_maxPx (size : Nat) : minPx size ≤ maxPx size := by
  have h1 : size * 8 / 100 ≤ size * 70 / 100 := by omega
  exact max_le_max (by norm_num) h1

lemma candidates_getElem? (size i : Nat) :
    (candidates size)[i]? =
      if i ≤ (maxPx size - minPx size) / stepPx size
      then some (maxPx size - i * stepPx size) else none := by
  unfold candidates
  rw [if_pos (minPx_le_maxPx size), List.getElem?_map]
  by_cases h : i ≤ (maxPx size - minPx size) / stepPx size
  · rw [List.getElem?_range (by omega), if_pos h]
    rfl
  · have hnone :
        (List.range ((maxPx size - minPx size) / stepPx size + 1))[i]? = none := by
      apply List.getElem?_eq_none
      simp only [List.length_range]
      omega
    rw [hnone, if_neg h]
    rfl

lemma candidates_head? (size : Nat) :
    (candidates size).head? = some (maxPx size) := by
  unfold candidates
  rw [if_pos (minPx_le_maxPx size), List.head?_map, List.range_succ_eq_map]
  simp

lemma candidates_getLast? (size : Nat) :
    (candidates size).getLast? =
      some (maxPx size - (maxPx size - minPx size) / stepPx size * stepPx size) := by
  unfold candidates
  rw [if_pos (minPx_le_maxPx size), List.range_succ, List.map_append]
  simp [List.getLast?_concat]

lemma candidates_last_bounds (size : Nat) :
    minPx size ≤ maxPx size - (maxPx size - minPx size) / stepPx size * stepPx size
    ∧ maxPx size - (maxPx size - minPx size) / stepPx size * stepPx size
        < minPx size + stepPx size := by
  have hdm := Nat.div_add_mod (maxPx size - minPx size) (stepPx size)
  have hlt : (maxPx size - minPx size) % stepPx size < stepPx size :=
    Nat.mod_lt _ (stepPx_pos size)
  have hle := minPx_le_maxPx size
  simp only [Nat.mul_comm ((maxPx size - minPx size) / stepPx size) (stepPx size)]
  generalize hm : stepPx size * ((maxPx size - minPx size) / stepPx size) = m at hdm ⊢
  generalize hr : (maxPx size - minPx size) % stepPx size = r at hdm hlt
  omega

/-- Claim C1 (corrected): the Auto-Fit candidates form the descending
arithmetic sequence `max_px - i·step` (with `max_px = max(220, ⌊0.70·size⌋)`,
`min_px = max(64, ⌊0.08·size⌋)`, `step = max(2, ⌊size/170⌋)`), starting at
`max_px`; its last element is the unique sequence member in
`[min_px, min_px + step)`, which equals `min_px` only when `step` divides
`max_px - min_px` — `min_px` itself is not in general the last candidate. -/
theorem claim_C1_amended (size : Nat) :
    (candidates size).head? = some (maxPx size)
    ∧ (∀ i, (candidates size)[i]? =
        if i ≤ (maxPx size - minPx size) / stepPx size
        then some (maxPx size - i * stepPx size) else none)
    ∧ (candidates size).getLast? =
        some (maxPx size - (maxPx size - minPx size) / stepPx size * stepPx size)
    ∧ minPx size ≤ maxPx size - (maxPx size - minPx size) / stepPx size * stepPx size
    ∧ maxPx size - (maxPx size - minPx size) / stepPx size * stepPx size
        < minPx size + stepPx size :=
  ⟨candidates_head? size, fun i => candidates_getElem? size i,
    candidates_getLast? size, (candidates_last_bounds size).1,
    (candidates_last_bounds size).2⟩

/-- Claim C1 counterexample: at canvas size 1024 (the CLI default) the last
candidate is 86, not `min_px = 81`; indeed 81 is not a candidate at all. -/
theorem claim_C1_counterexample :
    (candidates 1024).getLast? = some 86 ∧ minPx 1024 = 81
    ∧ 81 ∉ candidates 1024 := by
  refine ⟨?_, ?_, ?_⟩ <;> decide

/-- Claim C8: the mask returned by `make_text_mask` has dimensions
`width = max(1, round(max_x - min_x))`, `height = max(1, round(max_y - min_y))`,
hence is at least 1×1 even for a degenerate box. -/
theorem claim_C8 (bbox : BBoxQ) (ps : List GlyphPlacement) :
    (makeTextMask bbox ps).2.1 = max 1 (pyRound (bbox.maxX - bbox.minX))
    ∧ (makeTextMask bbox ps).2.2 = max 1 (pyRound (bbox.maxY - bbox.minY))
    ∧ 1 ≤ (makeTextMask bbox ps).2.1
    ∧ 1 ≤ (makeTextMask bbox ps).2.2
    ∧ (makeTextMask bbox ps).1.width = (makeTextMask bbox ps).2.1
    ∧ (makeTextMask bbox ps).1.height = (makeTextMask bbox ps).2.2 := by
  refine ⟨rfl, rfl, ?_, ?_, rfl, rfl⟩ <;> exact le_max_left 1 _

/-! ## Auto-fit loop lemmas -/

lemma mem_getElem? {l : List Nat} {a : Nat} (h : a ∈ l) :
    ∃ i : Nat, l[i]? = some a := by
  obtain ⟨i, hi, rfl⟩ := List.getElem_of_mem h
  exact ⟨i, List.getElem?_eq_getElem hi⟩

lemma fitLoop_some (upem : Nat) (gsrc : Nat → List ShapedGlyph)
    (targetW targetH : ℚ) (cs : List Nat) :
    ∀ (px : Nat) (box : BBoxQ) (ps : List GlyphPlacement) (ns : List String),
    (fitLoop upem gsrc targetW targetH cs).2 = some (px, box, ps, ns) →
    ∃ i, cs[i]? = some px
      ∧ (fitLoop upem gsrc targetW targetH cs).1 = cs.take i ++ [px]
      ∧ shapeAndMeasure upem px (gsrc px) = some (box, ps, ns)
      ∧ (box.maxX - box.minX ≤ targetW ∧ box.maxY - box.minY ≤ targetH)
      ∧ ∀ j q, j < i → cs[j]? = some q →
          fitsB upem gsrc targetW targetH q = false := by
  induction cs with
  | nil =>
    intro px box ps ns h
    exact Option.noConfusion h
  | cons c rest ih =>
    intro px box ps ns h
    cases hs : shapeAndMeasure upem c (gsrc c) with
    | none =>
      have hstep : fitLoop upem gsrc targetW targetH (c :: rest)
          = (c :: (fitLoop upem gsrc targetW targetH rest).1,
              (fitLoop upem gsrc targetW targetH rest).2) := by
        simp [fitLoop, hs]
      rw [hstep] at h
      obtain ⟨i, hi, htr, hsm, hfit, hprev⟩ := ih px box ps ns h
      refine ⟨i + 1, by simpa using hi, ?_, hsm, hfit, ?_⟩
      · rw [hstep, List.take_succ_cons, htr]
        rfl
      · intro j q hj hq
        cases j with
        | zero =>
          simp only [List.getElem?_cons_zero, Option.some.injEq] at hq
          subst hq
          unfold fitsB
          rw [hs]
        | succ j' =>
          simp only [List.getElem?_cons_succ] at hq
          exact hprev j' q (by omega) hq
    | some r3 =>
      obtain ⟨box0, ps0, ns0⟩ := r3
      by_cases hcond : box0.maxX - box0.minX ≤ targetW
          ∧ box0.maxY - box0.minY ≤ targetH
      · have hstep : fitLoop upem gsrc targetW targetH (c :: rest)
            = ([c], some (c, box0, ps0, ns0)) := by
          simp [fitLoop, hs, hcond]
        rw [hstep] at h
        simp only [Option.some.injEq, Prod.mk.injEq] at h
        obtain ⟨h1, h2, h3, h4⟩ := h
        subst h1; subst h2; subst h3; subst h4
        refine ⟨0, by simp, by simp [hstep], hs, hcond, ?_⟩
        intro j q hj hq
        omega
      · have hstep : fitLoop upem gsrc targetW targetH (c :: rest)
            = (c :: (fitLoop upem gsrc targetW targetH rest).1,
                (fitLoop upem gsrc targetW targetH rest).2) := by
          simp only [fitLoop, hs]
          rw [if_neg hcond]
        rw [hstep] at h
        obtain ⟨i, hi, htr, hsm, hfit, hprev⟩ := ih px box ps ns h
        refine ⟨i + 1, by simpa using hi, ?_, hsm, hfit, ?_⟩
        · rw [hstep, List.take_succ_cons, htr]
          rfl
        · intro j q hj hq
          cases j with
          | zero =>
            simp only [List.getElem?_cons_zero, Option.some.injEq] at hq
            subst hq
            unfold fitsB
            rw [hs]
            simpa using hcond
          | succ j' =>
            simp only [List.getElem?_cons_succ] at hq
            exact hprev j' q (by omega) hq

/-- Claim C6: the auto-fit loop returns the first candidate whose shaping is
non-EMPTY and whose box fits the target (the attempted-size list stops right
there), and — the candidate sequence being strictly descending — no larger
candidate in the sequence would have been accepted, so a smaller fitting
candidate is never preferred over a larger fitting one. -/
theorem claim_C6 (upem : Nat) (gsrc : Nat → List ShapedGlyph) (size : Nat)
    (fitW fitH : ℚ) (px : Nat) (box : BBoxQ) (ps : List GlyphPlacement)
    (ns : List String)
    (h : (fitLoop upem gsrc ((size : ℚ) * fitW) ((size : ℚ) * fitH)
        (candidates size)).2 = some (px, box, ps, ns)) :
    ∃ i, (candidates size)[i]? = some px
      ∧ (fitLoop upem gsrc ((size : ℚ) * fitW) ((size : ℚ) * fitH)
          (candidates size)).1 = (candidates size).take i ++ [px]
      ∧ fitsB upem gsrc ((size : ℚ) * fitW) ((size : ℚ) * fitH) px = true
      ∧ (∀ j q, j < i → (candidates size)[j]? = some q →
          fitsB upem gsrc ((size : ℚ) * fitW) ((size : ℚ) * fitH) q = false)
      ∧ ∀ q ∈ candidates size, px < q →
          fitsB upem gsrc ((size : ℚ) * fitW) ((size : ℚ) * fitH) q = false := by
  obtain ⟨i, hi, htr, hsm, hcond, hprev⟩ :=
    fitLoop_some upem gsrc ((size : ℚ) * fitW) ((size : ℚ) * fitH)
      (candidates size) px box ps ns h
  refine ⟨i, hi, htr, ?_, hprev, ?_⟩
  · unfold fitsB
    rw [hsm]
    simpa using hcond
  · intro q hq hlt
    obtain ⟨j, hj⟩ := mem_getElem? hq
    have hi' := candidates_getElem? size i
    rw [hi] at hi'
    have hj' := candidates_getElem? size j
    rw [hj] at hj'
    by_cases hik : i ≤ (maxPx size - minPx size) / stepPx size
    · by_cases hjk : j ≤ (maxPx size - minPx size) / stepPx size
      · rw [if_pos hik] at hi'
        rw [if_pos hjk] at hj'
        have hpx : px = maxPx size - i * stepPx size := by
          injection hi'
        have hqv : q = maxPx size - j * stepPx size := by
          injection hj'
        have hbi : i * stepPx size
            ≤ (maxPx size - minPx size) / stepPx size * stepPx size :=
          mul_le_mul_right' hik _
        have hbK : (maxPx size - minPx size) / stepPx size * stepPx size
            ≤ maxPx size - minPx size := Nat.div_mul_le_self _ _
        have hmn := minPx_le_maxPx size
        have hba : j * stepPx size < i * stepPx size := by
          subst hpx
          subst hqv
          generalize hA : i * stepPx size = a at *
          generalize hB : j * stepPx size = b at *
          generalize hC :
            (maxPx size - minPx size) / stepPx size * stepPx size = k at *
          omega
        have hji : j < i :=
          lt_of_mul_lt_mul_right hba (Nat.zero_le _)
        exact hprev j q hji hj
      · rw [if_neg hjk] at hj'
        exact Option.noConfusion hj'
    · rw [if_neg hik] at hi'
      exact Option.noConfusion hi'

set_option maxRecDepth 16000 in
/-- Witness for claim C6: a glyph source whose box at pixel size `px` is
`px × 1`; at size 1024 the very first candidate (716) already fits the
72 %/36 % target, so the loop returns 716 after a single attempt and no
larger candidate fits vacuously. -/
theorem claim_C6_witness :
    ∃ i : Nat, (candidates 1024)[i]? = some 716
      ∧ ∀ q ∈ candidates 1024, 716 < q →
          fitsB 1000 (fun px => [⟨1, 0, 0, 0, 0, px, 1, 0, 0, [], some "g"⟩])
            ((1024 : ℚ) * (72 / 100)) ((1024 : ℚ) * (36 / 100)) q = false := by
  obtain ⟨i, hi, htr, hfit, hprev, hlarger⟩ := claim_C6 1000
    (fun px => [⟨1, 0, 0, 0, 0, px, 1, 0, 0, [], some "g"⟩]) 1024
    (72 / 100) (36 / 100) 716 ⟨0, 0, 716, 1⟩ [⟨0, 0, 716, 1, []⟩] ["g"]
    (by with_unfolding_all decide)
  exact ⟨i, hi, hlarger⟩

/-! ## build_avatar lemmas -/

lemma chooseSize_fallback_none {upem : Nat} {gsrc : Nat → List ShapedGlyph}
    {size : Nat} {fitW fitH : ℚ}
    (hf : (fitLoop upem gsrc ((size : ℚ) * fitW) ((size : ℚ) * fitH)
        (candidates size)).2 = none)
    (hs : shapeAndMeasure upem 220 (gsrc 220) = none) :
    chooseSize upem gsrc size fitW fitH
      = ((fitLoop upem gsrc ((size : ℚ) * fitW) ((size : ℚ) * fitH)
          (candidates size)).1 ++ [220], none) := by
  simp only [chooseSize, hf, hs]

lemma chooseSize_fallback_some {upem : Nat} {gsrc : Nat → List ShapedGlyph}
    {size : Nat} {fitW fitH : ℚ} {box : BBoxQ} {ps : List GlyphPlacement}
    {ns : List String}
    (hf : (fitLoop upem gsrc ((size : ℚ) * fitW) ((size : ℚ) * fitH)
        (candidates size)).2 = none)
    (hs : shapeAndMeasure upem 220 (gsrc 220) = some (box, ps, ns)) :
    chooseSize upem gsrc size fitW fitH
      = ((fitLoop upem gsrc ((size : ℚ) * fitW) ((size : ℚ) * fitH)
          (candidates size)).1 ++ [220], some (220, box, ps, ns)) := by
  simp only [chooseSize, hf, hs]

lemma buildAvatar_err_of_none {upem : Nat} {gsrc : Nat → List ShapedGlyph}
    {shape : String} {size : Nat} {fitW fitH : ℚ}
    (h : (chooseSize upem gsrc size fitW fitH).2 = none) :
    buildAvatar upem gsrc shape size fitW fitH
      = ⟨AvatarEvent.loadFont ::
            (chooseSize upem gsrc size fitW fitH).1.map AvatarEvent.shapeRun,
          none, .error .noDrawableGlyphs⟩ := by
  simp only [buildAvatar, h]

lemma buildAvatar_badShape {upem : Nat} {gsrc : Nat → List ShapedGlyph}
    {shape : String} {size : Nat} {fitW fitH : ℚ} {fontPx : Nat}
    {box : BBoxQ} {ps : List GlyphPlacement} {ns : List String}
    (h : (chooseSize upem gsrc size fitW fitH).2 = some (fontPx, box, ps, ns))
    (h1 : shape ≠ "circle") (h2 : shape ≠ "square") :
    buildAvatar upem gsrc shape size fitW fitH
      = ⟨(AvatarEvent.loadFont ::
            (chooseSize upem gsrc size fitW fitH).1.map AvatarEvent.shapeRun)
          ++ [AvatarEvent.maskBuild],
          some (makeTextMask box ps).2,
          .error (.unsupportedShape shape)⟩ := by
  simp only [buildAvatar, h]
  rw [if_neg h1, if_neg h2]

lemma saveFile_not_mem_prefix (l : List Nat) :
    AvatarEvent.saveFile
      ∉ (AvatarEvent.loadFont :: l.map AvatarEvent.shapeRun)
        ++ [AvatarEvent.maskBuild] := by
  intro h
  rcases List.mem_append.mp h with h | h
  · rcases List.mem_cons.mp h with h | h
    · exact AvatarEvent.noConfusion h
    · obtain ⟨px, -, hpx⟩ := List.mem_map.mp h
      exact AvatarEvent.noConfusion hpx
  · rcases List.mem_cons.mp h with h | h
    · exact AvatarEvent.noConfusion h
    · exact absurd h (List.not_mem_nil _)

lemma saveFile_not_mem_short (l : List Nat) :
    AvatarEvent.saveFile ∉ AvatarEvent.loadFont :: l.map AvatarEvent.shapeRun := by
  intro h
  rcases List.mem_cons.mp h with h | h
  · exact AvatarEvent.noConfusion h
  · obtain ⟨px, -, hpx⟩ := List.mem_map.mp h
    exact AvatarEvent.noConfusion hpx

/-- Claim C2 (corrected): the CLI parser does reject shape values outside
`{"circle", "square"}` at configuration time (argparse `choices`), and
`build_avatar` itself always fails on such a shape without writing an output
file — but inside `build_avatar` the invalid-argument error is raised only
AFTER the rendering work: whenever the auto-fit stage produced a result
(so the unsupported-shape branch is reached at all), the trace already
contains the font load, the shaping runs and the mask build. -/
theorem claim_C2_amended (upem : Nat) (gsrc : Nat → List ShapedGlyph)
    (size : Nat) (fitW fitH : ℚ) (shape : String)
    (h1 : shape ≠ "circle") (h2 : shape ≠ "square") :
    parseShapeArg shape = none
    ∧ (∃ e, (buildAvatar upem gsrc shape size fitW fitH).result = .error e)
    ∧ AvatarEvent.saveFile ∉ (buildAvatar upem gsrc shape size fitW fitH).trace
    ∧ ∀ c, (chooseSize upem gsrc size fitW fitH).2 = some c →
        (buildAvatar upem gsrc shape size fitW fitH).result
            = .error (.unsupportedShape shape)
        ∧ AvatarEvent.loadFont
            ∈ (buildAvatar upem gsrc shape size fitW fitH).trace
        ∧ AvatarEvent.maskBuild
            ∈ (buildAvatar upem gsrc shape size fitW fitH).trace := by
  have hshape : parseShapeArg shape = none := by
    unfold parseShapeArg
    rw [if_neg]
    intro hc
    rcases hc with hc | hc
    · exact h1 hc
    · exact h2 hc
  cases hc : (chooseSize upem gsrc size fitW fitH).2 with
  | none =>
    rw [buildAvatar_err_of_none hc]
    refine ⟨hshape, ⟨.noDrawableGlyphs, rfl⟩, ?_, ?_⟩
    · exact saveFile_not_mem_short _
    · intro c hcs
      exact Option.noConfusion hcs
  | some c =>
    obtain ⟨fontPx, box, ps, ns⟩ := c
    rw [buildAvatar_badShape hc h1 h2]
    refine ⟨hshape, ⟨.unsupportedShape shape, rfl⟩, ?_, ?_⟩
    · exact saveFile_not_mem_prefix _
    · intro c' hcs
      refine ⟨rfl, ?_, ?_⟩
      · exact List.mem_append.mpr (Or.inl (List.mem_cons_self _ _))
      · exact List.mem_append.mpr (Or.inr (List.mem_cons_self _ _))

/-- Claim C2 counterexample: calling `build_avatar` with shape
`"triangle"` on input that shapes successfully does raise the
unsupported-shape error, but only after font loading and mask building —
the trace shows rendering work happened before the configuration error,
contradicting "before any rendering work occurs". -/
theorem claim_C2_counterexample :
    (buildAvatar 1000 (fun _ => [⟨5, 600, 0, 0, 0, 10, 10, 0, 8, [], some "g5"⟩])
        "triangle" 1024 (72 / 100) (36 / 100)).result
      = .error (.unsupportedShape "triangle")
    ∧ AvatarEvent.loadFont
        ∈ (buildAvatar 1000
            (fun _ => [⟨5, 600, 0, 0, 0, 10, 10, 0, 8, [], some "g5"⟩])
            "triangle" 1024 (72 / 100) (36 / 100)).trace
    ∧ AvatarEvent.maskBuild
        ∈ (buildAvatar 1000
            (fun _ => [⟨5, 600, 0, 0, 0, 10, 10, 0, 8, [], some "g5"⟩])
            "triangle" 1024 (72 / 100) (36 / 100)).trace := by
  refine ⟨?_, ?_, ?_⟩
  · with_unfolding_all rfl
  · with_unfolding_all decide
  · with_unfolding_all decide

/-- Witness for claim C2: shape `"triangle"` is rejected by the CLI choices
and a build with it never saves a file. -/
theorem claim_C2_witness :
    parseShapeArg "triangle" = none
    ∧ AvatarEvent.saveFile
        ∉ (buildAvatar 1000 (fun _ => []) "triangle" 64
            (72 / 100) (36 / 100)).trace := by
  have h := claim_C2_amended 1000 (fun _ => []) 64 (72 / 100) (36 / 100)
    "triangle" (by decide) (by decide)
  exact ⟨h.1, h.2.2.1⟩

/-- Claim C4: when no candidate in the descending sequence is accepted, the
build re-shapes at the fixed size 220 and uses that result unconditionally
(no fit check); if the 220 px pass is also EMPTY, `build_avatar` fails with
the no-drawable-glyphs error and no save ever happens. -/
theorem claim_C4 (upem : Nat) (gsrc : Nat → List ShapedGlyph) (size : Nat)
    (fitW fitH : ℚ) (shape : String)
    (hnofit : (fitLoop upem gsrc ((size : ℚ) * fitW) ((size : ℚ) * fitH)
        (candidates size)).2 = none) :
    (shapeAndMeasure upem 220 (gsrc 220) = none →
      (buildAvatar upem gsrc shape size fitW fitH).result
          = .error .noDrawableGlyphs
      ∧ AvatarEvent.saveFile
          ∉ (buildAvatar upem gsrc shape size fitW fitH).trace)
    ∧ ∀ (box : BBoxQ) (ps : List GlyphPlacement) (ns : List String),
        shapeAndMeasure upem 220 (gsrc 220) = some (box, ps, ns) →
        (chooseSize upem gsrc size fitW fitH).2 = some (220, box, ps, ns) := by
  constructor
  · intro hs
    have hcs : (chooseSize upem gsrc size fitW fitH).2 = none := by
      rw [chooseSize_fallback_none hnofit hs]
    rw [buildAvatar_err_of_none hcs]
    exact ⟨rfl, saveFile_not_mem_short _⟩
  · intro box ps ns hs
    rw [chooseSize_fallback_some hnofit hs]

/-- Witness for claim C4: a glyph source that always returns no glyphs is
EMPTY at every candidate and at 220, so the build fails fatally and the
trace has no save event. -/
theorem claim_C4_witness :
    (buildAvatar 1000 (fun _ => []) "circle" 64 (72 / 100) (36 / 100)).result
        = .error .noDrawableGlyphs
    ∧ AvatarEvent.saveFile
        ∉ (buildAvatar 1000 (fun _ => []) "circle" 64
            (72 / 100) (36 / 100)).trace := by
  exact (claim_C4 1000 (fun _ => []) 64 (72 / 100) (36 / 100) "circle"
    (by with_unfolding_all decide)).1 (by decide)

end AvatarGen
